import Mathlib

/-!
Verification of the client-side shopping-cart core of the Bags-Shop
storefront (src/js/main.js): the `Cart` object (getCart, saveCart,
addItem, removeItem, updateQuantity, getTotalQuantity, getSubtotal,
updateCartCounter) and the image selection of `renderCartItems`.

JavaScript numbers that flow through cart quantities are modelled by
`JsNum`: an integer or NaN (the only non-integer values reachable in the
quantity fields come from adding `undefined`, which yields NaN).
Strings are Lean `String`s; an absent (`undefined`) request field that the
code only tests for truthiness is modelled by the falsy value of its type
(`""` for strings, `none` for the optional quantity).
-/

/-- A JavaScript number as it appears in cart quantity positions:
either an integer or NaN. -/
inductive JsNum where
  | int : Int → JsNum
  | nan : JsNum
deriving DecidableEq, Repr

/-- JavaScript `+` on quantity values: NaN is absorbing. -/
def JsNum.add : JsNum → JsNum → JsNum
  | .int a, .int b => .int (a + b)
  | _, _ => .nan

/-- JavaScript `<=` on quantity values: any comparison with NaN is false. -/
def JsNum.le : JsNum → JsNum → Bool
  | .int a, .int b => a ≤ b
  | _, _ => false

/-- JavaScript `<` on quantity values: any comparison with NaN is false. -/
def JsNum.lt : JsNum → JsNum → Bool
  | .int a, .int b => a < b
  | _, _ => false

/-- JavaScript truthiness of a quantity value: 0 and NaN are falsy. -/
def JsNum.truthy : JsNum → Bool
  | .int a => a ≠ 0
  | .nan => false

/-- True exactly when the value is an integer `n` with `1 ≤ n` —
the spec's positive-integer quantity invariant. -/
def JsNum.isPosInt : JsNum → Bool
  | .int a => 1 ≤ a
  | .nan => false

/-- True exactly when the value is an integer (not NaN). -/
def JsNum.isIntQ : JsNum → Bool
  | .int _ => true
  | .nan => false

/-- A stored cart line item (src/js/main.js, the objects pushed by
`Cart.addItem` and persisted under the `cart` key). -/
structure Item where
  id : String
  name : String
  price : String
  variant : String
  image : String
  quantity : JsNum
deriving DecidableEq, Repr

/-- A product request as passed to `Cart.addItem` (built by the
product-page collector). `variant = ""` models an empty or absent
variant (both falsy); `quantity = none` models an absent field. -/
structure Product where
  id : String
  name : String
  price : String
  variant : String
  image : String
  quantity : Option JsNum
deriving DecidableEq, Repr

/-- The value of `product.quantity` as a JavaScript number: an absent
field (`undefined`) behaves as NaN under arithmetic. -/
def Product.qtyNum (p : Product) : JsNum :=
  match p.quantity with
  | some q => q
  | none => .nan

/-- Truthiness of `product.quantity` (used by the `||` defaults):
absent, 0 and NaN are falsy. -/
def Product.qtyTruthy (p : Product) : Bool :=
  match p.quantity with
  | some q => q.truthy
  | none => false

/-- The predicate `item.id === id && item.variant === variant` used by
`find` and `filter` in addItem, removeItem and updateQuantity. -/
def itemMatches (id variant : String) (i : Item) : Bool :=
  i.id == id && i.variant == variant

/-- The new object pushed by `Cart.addItem` when no existing item
matches: `variant` defaults to `"default"`, `image` to `""`,
`quantity` to 1, each via `||`. -/
def newItem (p : Product) : Item :=
  { id := p.id
    name := p.name
    price := p.price
    variant := if p.variant = "" then "default" else p.variant
    image := p.image
    quantity := if p.qtyTruthy then p.qtyNum else .int 1 }

/-- Applies `f` to the first element satisfying `p`, leaving the rest of
the list unchanged; models an in-place mutation of the object returned
by `Array.prototype.find`. -/
def mapFirst (p : Item → Bool) (f : Item → Item) : List Item → List Item
  | [] => []
  | i :: rest => if p i then f i :: rest else i :: mapFirst p f rest

/-- `Cart.addItem` on a loaded cart: merge into the first `(id, variant)`
match by `existingItem.quantity += product.quantity`, else push a new
defaulted item. -/
def addItem (cart : List Item) (p : Product) : List Item :=
  match cart.find? (itemMatches p.id p.variant) with
  | some _ =>
      mapFirst (itemMatches p.id p.variant)
        (fun i => { i with quantity := i.quantity.add p.qtyNum }) cart
  | none => cart ++ [newItem p]

/-- `Cart.removeItem` on a loaded cart: keep exactly the items whose
`(id, variant)` differs from the given key. -/
def removeItem (cart : List Item) (itemId variant : String) : List Item :=
  cart.filter (fun i => !(itemMatches itemId variant i))

/-- `Cart.updateQuantity` on a loaded cart: if an item matches, a
non-positive quantity delegates to removeItem, otherwise the matched
item's quantity is overwritten; with no match the cart is saved
unchanged. -/
def updateQuantity (cart : List Item) (itemId variant : String) (quantity : JsNum) :
    List Item :=
  match cart.find? (itemMatches itemId variant) with
  | some _ =>
      if quantity.le (.int 0) then removeItem cart itemId variant
      else mapFirst (itemMatches itemId variant) (fun i => { i with quantity := quantity }) cart
  | none => cart

/-- `Cart.getTotalQuantity`: left fold of `+` over the quantities,
starting from 0. -/
def getTotalQuantity (cart : List Item) : JsNum :=
  cart.foldl (fun total i => total.add i.quantity) (.int 0)

/-- The quantity of an item as an integer (0 for NaN; only used under
the positive-integer quantity invariant, which excludes NaN). -/
def qtyInt (i : Item) : Int :=
  match i.quantity with
  | .int n => n
  | .nan => 0

/-- The integer total quantity of a cart. -/
def totalQtyInt (cart : List Item) : Int :=
  cart.foldl (fun s i => s + qtyInt i) 0

/-- No two items of the cart share the compound key `(id, variant)` —
the spec's identity invariant. -/
def NoDupKeys (cart : List Item) : Prop :=
  cart.Pairwise (fun a b => ¬(a.id = b.id ∧ a.variant = b.variant))

instance : DecidablePred NoDupKeys := fun cart =>
  List.instDecidablePairwise cart

/-! ### Persistent store adapter: serialization (JSON.stringify of the cart) -/

/-- Opening brace character. -/
def lbrace : Char := Char.ofNat 123

/-- Closing brace character. -/
def rbrace : Char := Char.ofNat 125

/-- Lowercase hexadecimal digit for a value below 16. -/
def hexDigitCh (n : Nat) : Char :=
  if n < 10 then Char.ofNat (48 + n) else Char.ofNat (87 + n)

/-- Decimal digit character for a value below 10. -/
def decDigit (n : Nat) : Char := Char.ofNat (48 + n)

/-- JSON string escaping of one character, as JSON.stringify performs it:
quote and backslash get a backslash escape, the five named control
characters their short escapes, other control characters a `\u00xx`
escape, and everything else passes through. -/
def escapeChar (c : Char) : List Char :=
  if c = '"' then ['\\', '"']
  else if c = '\\' then ['\\', '\\']
  else if c = Char.ofNat 8 then ['\\', 'b']
  else if c = Char.ofNat 9 then ['\\', 't']
  else if c = Char.ofNat 10 then ['\\', 'n']
  else if c = Char.ofNat 12 then ['\\', 'f']
  else if c = Char.ofNat 13 then ['\\', 'r']
  else if c.toNat < 32 then
    ['\\', 'u', '0', '0', hexDigitCh (c.toNat / 16), hexDigitCh (c.toNat % 16)]
  else [c]

/-- JSON string escaping of a character sequence. -/
def escapeChars : List Char → List Char
  | [] => []
  | c :: cs => escapeChar c ++ escapeChars cs

/-- Decimal digit characters of a natural number, most significant
first; the fuel argument only bounds the recursion depth. -/
def natCharsAux : Nat → Nat → List Char
  | 0, _ => []
  | fuel + 1, n =>
      if n < 10 then [decDigit n]
      else natCharsAux fuel (n / 10) ++ [decDigit (n % 10)]

/-- Decimal digit characters of a natural number, most significant first. -/
def natChars (n : Nat) : List Char := natCharsAux (n + 1) n

/-- Decimal representation of an integer. -/
def intChars (n : Int) : List Char :=
  if n < 0 then '-' :: natChars n.natAbs else natChars n.natAbs

/-- JSON.stringify of a quantity value; NaN serializes as `null`. -/
def jsNumChars : JsNum → List Char
  | .int n => intChars n
  | .nan => ['n', 'u', 'l', 'l']

/-- A JSON string literal: quote, escaped content, quote. -/
def jstr (s : String) : List Char := '"' :: escapeChars s.data ++ ['"']

/-- The characters of a serialized object key followed by a colon; the
fixed keys of a line item contain no characters needing escapes. -/
def keyChars (k : String) : List Char := '"' :: k.data ++ ['"', ':']

/-- JSON.stringify of one line item object, keys in the insertion order
used by `Cart.addItem`. -/
def itemChars (i : Item) : List Char :=
  lbrace :: keyChars "id" ++ jstr i.id
  ++ ',' :: keyChars "name" ++ jstr i.name
  ++ ',' :: keyChars "price" ++ jstr i.price
  ++ ',' :: keyChars "variant" ++ jstr i.variant
  ++ ',' :: keyChars "image" ++ jstr i.image
  ++ ',' :: keyChars "quantity" ++ jsNumChars i.quantity ++ [rbrace]

/-- Comma-separated serializations of the items of a cart. -/
def itemsChars : List Item → List Char
  | [] => []
  | [i] => itemChars i
  | i :: rest => itemChars i ++ ',' :: itemsChars rest

/-- JSON.stringify of the whole cart array. -/
def stringifyCart (cart : List Item) : String :=
  String.mk ('[' :: itemsChars cart ++ [']'])

/-- `Cart.saveCart`: the string written to the `cart` key of the store
(`localStorage.setItem('cart', JSON.stringify(cart))`). -/
def saveCart (cart : List Item) : String := stringifyCart cart

/-! ### Persistent store adapter: parsing (JSON.parse of a stored value) -/

/-- Consumes an expected literal character sequence from the input. -/
def expects : List Char → List Char → Option (List Char)
  | [], l => some l
  | _ :: _, [] => none
  | p :: ps, c :: cs => if c = p then expects ps cs else none

/-- Value of a hexadecimal digit character. -/
def hexVal (c : Char) : Option Nat :=
  if '0' ≤ c ∧ c ≤ '9' then some (c.toNat - 48)
  else if 'a' ≤ c ∧ c ≤ 'f' then some (c.toNat - 87)
  else if 'A' ≤ c ∧ c ≤ 'F' then some (c.toNat - 55)
  else none

/-- Single-character JSON escapes. -/
def unescape (e : Char) : Option Char :=
  if e = '"' then some '"'
  else if e = '\\' then some '\\'
  else if e = '/' then some '/'
  else if e = 'b' then some (Char.ofNat 8)
  else if e = 't' then some (Char.ofNat 9)
  else if e = 'n' then some (Char.ofNat 10)
  else if e = 'f' then some (Char.ofNat 12)
  else if e = 'r' then some (Char.ofNat 13)
  else none

/-- Parses the body of a JSON string up to and including the closing
quote, returning the unescaped content and the remaining input; raw
control characters are rejected as JSON.parse rejects them. -/
def parseStringBody : List Char → Option (List Char × List Char)
  | [] => none
  | c :: cs =>
      if c = '"' then some ([], cs)
      else if c = '\\' then
        match cs with
        | 'u' :: h1 :: h2 :: h3 :: h4 :: cs2 =>
            match hexVal h1, hexVal h2, hexVal h3, hexVal h4 with
            | some a, some b, some c1, some d =>
                (parseStringBody cs2).map
                  (fun r => (Char.ofNat (((a * 16 + b) * 16 + c1) * 16 + d) :: r.1, r.2))
            | _, _, _, _ => none
        | e :: cs2 =>
            match unescape e with
            | some u => (parseStringBody cs2).map (fun r => (u :: r.1, r.2))
            | none => none
        | [] => none
      else if c.toNat < 32 then none
      else (parseStringBody cs).map (fun r => (c :: r.1, r.2))

/-- Parses a JSON string literal including its opening quote. -/
def parseJString : List Char → Option (List Char × List Char)
  | '"' :: cs => parseStringBody cs
  | _ => none

/-- Decimal digit character test. -/
def isDigitCh (c : Char) : Bool := '0' ≤ c && c ≤ '9'

/-- Consumes a maximal run of decimal digits, folding them onto an
accumulator. -/
def digitsAcc (acc : Nat) : List Char → Nat × List Char
  | [] => (acc, [])
  | c :: cs =>
      if isDigitCh c then digitsAcc (acc * 10 + (c.toNat - 48)) cs
      else (acc, c :: cs)

/-- Parses a nonempty run of decimal digits as a natural number. -/
def parseNatNum : List Char → Option (Nat × List Char)
  | [] => none
  | c :: cs =>
      if isDigitCh c then some (digitsAcc (c.toNat - 48) cs) else none

/-- Parses a JSON integer (optional minus sign, digits). -/
def parseJInt : List Char → Option (Int × List Char)
  | [] => none
  | c :: cs =>
      if c = '-' then (parseNatNum cs).map (fun r => (-(r.1 : Int), r.2))
      else (parseNatNum (c :: cs)).map (fun r => ((r.1 : Int), r.2))

/-- Parses one expected key and its string value. -/
def parseField (k : String) (l : List Char) : Option (List Char × List Char) :=
  (expects (keyChars k) l).bind parseJString

/-- Parses one serialized line item object. -/
def parseItem (l : List Char) : Option (Item × List Char) := do
  let l ← expects [lbrace] l
  let (idv, l) ← parseField "id" l
  let l ← expects [','] l
  let (namev, l) ← parseField "name" l
  let l ← expects [','] l
  let (pricev, l) ← parseField "price" l
  let l ← expects [','] l
  let (variantv, l) ← parseField "variant" l
  let l ← expects [','] l
  let (imagev, l) ← parseField "image" l
  let l ← expects (',' :: keyChars "quantity") l
  let (q, l) ← parseJInt l
  let l ← expects [rbrace] l
  some (⟨String.mk idv, String.mk namev, String.mk pricev, String.mk variantv,
         String.mk imagev, .int q⟩, l)

/-- Parses a comma-separated sequence of items terminated by `]`; the
fuel bounds the item count by the input length. -/
def parseItems : Nat → List Char → Option (List Item × List Char)
  | 0, _ => none
  | fuel + 1, l => do
    let (i, l2) ← parseItem l
    match l2 with
    | ',' :: l3 => (parseItems fuel l3).map (fun r => (i :: r.1, r.2))
    | ']' :: l3 => some ([i], l3)
    | _ => none

/-- Parses a full stored cart value: a JSON array of line item objects
consuming the entire input. -/
def parseCartChars (l : List Char) : Option (List Item) :=
  match l with
  | '[' :: rest =>
      if rest = [']'] then some []
      else
        match parseItems (rest.length + 1) rest with
        | some (items, []) => some items
        | _ => none
  | _ => none

/-- `Cart.getCart` against a store state (the value under the `cart`
key, or `none` when absent): a falsy stored value (absent key or empty
string) yields the empty cart, otherwise the value is parsed and a
parse failure is an uncaught exception (`JSON.parse` throws). -/
def getCart (store : Option String) : Except Unit (List Item) :=
  match store with
  | none => .ok []
  | some s =>
      if s = "" then .ok []
      else
        match parseCartChars s.data with
        | some c => .ok c
        | none => .error ()

/-- The stored value after loading a stored value and saving the result
back, when the load does not throw. -/
def saveAfterLoad (s : String) : Except Unit String :=
  (getCart (some s)).map saveCart

/-! ### Price parsing and subtotal -/

/-- Removes the first occurrence of a character, as the JavaScript
`String.prototype.replace` with a single-character string pattern and
empty replacement does. -/
def removeFirst (c : Char) : List Char → List Char
  | [] => []
  | x :: xs => if x = c then xs else x :: removeFirst c xs

/-- Whitespace skipped by parseFloat. -/
def isWsChar (c : Char) : Bool :=
  c = ' ' || c = Char.ofNat 9 || c = Char.ofNat 10 || c = Char.ofNat 11 ||
  c = Char.ofNat 12 || c = Char.ofNat 13

/-- Value of a digit character run. -/
def digitListVal (l : List Char) : Nat :=
  l.foldl (fun acc c => acc * 10 + (c.toNat - 48)) 0

/-- The optional sign at the head of a parseFloat input, together with
the input after it. -/
def parseFloatSign : List Char → Int × List Char
  | [] => (1, [])
  | c :: r =>
      if c = '-' then (-1, r)
      else if c = '+' then (1, r)
      else (1, c :: r)

/-- The fractional digit run following a decimal dot, if present. -/
def fracPart : List Char → List Char
  | '.' :: r => r.takeWhile isDigitCh
  | _ => []

/-- The unsigned magnitude parsed by parseFloat: a maximal digit run,
an optional fraction after a dot; everything past the numeric head is
ignored; `none` when there is no digit at all (NaN). The value is the
exact scaled decimal `(m, k)` denoting `m / 10 ^ k`. -/
def parseFloatMag (l : List Char) : Option (Nat × Nat) :=
  let intDigits := l.takeWhile isDigitCh
  let fracDigits := fracPart (l.dropWhile isDigitCh)
  if intDigits = [] ∧ fracDigits = [] then none
  else
    some (digitListVal intDigits * 10 ^ fracDigits.length + digitListVal fracDigits,
      fracDigits.length)

/-- Model of JavaScript `parseFloat` on sign/digits/fraction inputs
(the shapes price strings take; exponent notation does not occur in
them): leading whitespace is skipped, then an optional sign and the
magnitude; `none` models NaN. -/
def parseFloatDec (l0 : List Char) : Option (Int × Nat) :=
  match parseFloatSign (l0.dropWhile isWsChar) with
  | (sign, l1) => (parseFloatMag l1).map (fun r => (sign * (r.1 : Int), r.2))

/-- The rational value of the parseFloat result; `none` models NaN. -/
def parseFloatQ (l : List Char) : Option ℚ :=
  (parseFloatDec l).map (fun r => (r.1 : ℚ) / (10 : ℚ) ^ r.2)

/-- The price parsing performed inside `Cart.getSubtotal`:
`parseFloat(item.price.replace('$', '').replace(',', ''))`. Note that
the JavaScript `replace` with a string pattern replaces only the first
occurrence. -/
def parsePrice (price : String) : Option ℚ :=
  parseFloatQ (removeFirst ',' (removeFirst '$' price.data))

/-- `Cart.getSubtotal`: fold of `total + parsedPrice * quantity` over
the items; a NaN price or quantity poisons the total (`none`). -/
def getSubtotal (cart : List Item) : Option ℚ :=
  cart.foldl
    (fun total i =>
      match total, parsePrice i.price, i.quantity with
      | some t, some p, .int n => some (t + p * (n : ℚ))
      | _, _, _ => none)
    (some 0)

/-! ### Counter presenter and cart page image selection -/

/-- The cart badge element state: its text content and CSS display. -/
structure Badge where
  text : String
  display : String
deriving DecidableEq, Repr

/-- String coercion of a quantity value, as `textContent = total`
performs it. -/
def jsNumText : JsNum → String
  | .int n => String.mk (intChars n)
  | .nan => "NaN"

/-- `Cart.updateCartCounter` against an optional badge element: absent
badge is a no-op; otherwise the text becomes the total quantity and the
display is `flex` when the total is greater than 0, else `none`. -/
def updateCartCounter (cart : List Item) (badge : Option Badge) : Option Badge :=
  match badge with
  | none => none
  | some _ =>
      some { text := jsNumText (getTotalQuantity cart)
             display := if JsNum.lt (.int 0) (getTotalQuantity cart) then "flex" else "none" }

/-- Substring containment, as `String.prototype.includes`. -/
def containsSub (s sub : String) : Bool :=
  s.data.tails.any (fun t => sub.data.isPrefixOf t)

/-- The image path `renderCartItems` chooses for a row: the name-keyword
mapping is inspected first, the stored `item.image` is used only when no
keyword matches, and `Product 1.jpg` is the final default. -/
def cartItemImage (item : Item) : String :=
  if containsSub item.name "Minimalist" || containsSub item.name "Crossbody" then
    "assets/images/Product 2.jpg"
  else if containsSub item.name "Clutch" || containsSub item.name "Evening" then
    "assets/images/Product 3.jpg"
  else if containsSub item.name "Backpack" || containsSub item.name "Weekend" then
    "assets/images/Product 4.jpg"
  else if item.image ≠ "" then item.image
  else "assets/images/Product 1.jpg"

example :
    (addItem [] ⟨"p1", "Bag", "$10.00", "Red", "", some (.int 1)⟩).map Item.quantity
      = [.int 1] := by rfl

example :
    (addItem [⟨"p1", "Bag", "$10.00", "Red", "", .int 1⟩]
        ⟨"p1", "Bag", "$10.00", "Red", "", some (.int 2)⟩).map Item.quantity
      = [.int 3] := by rfl

example : stringifyCart [] = "[]" := by rfl

example :
    parseCartChars (stringifyCart [⟨"p1", "Bag", "$10.00", "Red", "", .int 2⟩]).data
      = some [⟨"p1", "Bag", "$10.00", "Red", "", .int 2⟩] := by decide

example : parseFloatDec (removeFirst ',' (removeFirst '$' "$1,234,567.00".data))
    = some (1234, 0) := by decide

example : parsePrice "$1,234,567.00" = some 1234 := by
  have h : parseFloatDec (removeFirst ',' (removeFirst '$' "$1,234,567.00".data))
      = some (1234, 0) := by decide
  simp [parsePrice, parseFloatQ, h]

example : parsePrice "$1,250.50" = some (1250.50 : ℚ) := by
  have h : parseFloatDec (removeFirst ',' (removeFirst '$' "$1,250.50".data))
      = some (125050, 2) := by decide
  rw [parsePrice, parseFloatQ, h]
  norm_num

/-! ### Helper lemmas -/

theorem string_mk_data (s : String) : String.mk s.data = s := by cases s; rfl

theorem itemMatches_iff {id variant : String} {i : Item} :
    itemMatches id variant i = true ↔ i.id = id ∧ i.variant = variant := by
  simp [itemMatches]

theorem itemMatches_false_iff {id variant : String} {i : Item} :
    itemMatches id variant i = false ↔ ¬(i.id = id ∧ i.variant = variant) := by
  rw [Bool.eq_false_iff, ne_eq, itemMatches_iff]

theorem mapFirst_of_none (p : Item → Bool) (f : Item → Item) (l : List Item)
    (h : ∀ i ∈ l, p i = false) : mapFirst p f l = l := by
  induction l with
  | nil => rfl
  | cons i rest ih =>
      have hi : p i = false := h i (by simp)
      simp [mapFirst, hi, ih fun j hj => h j (by simp [hj])]

theorem mapFirst_append (p : Item → Bool) (f : Item → Item) (l1 : List Item)
    (i : Item) (l2 : List Item) (h1 : ∀ j ∈ l1, p j = false) (hi : p i = true) :
    mapFirst p f (l1 ++ i :: l2) = l1 ++ f i :: l2 := by
  induction l1 with
  | nil => simp [mapFirst, hi]
  | cons a t ih =>
      have ha : p a = false := h1 a (by simp)
      simp [mapFirst, ha, ih fun j hj => h1 j (by simp [hj])]

theorem find?_append_left_none (p : Item → Bool) (l1 l2 : List Item)
    (h : ∀ x ∈ l1, p x = false) : (l1 ++ l2).find? p = l2.find? p := by
  rw [List.find?_append, List.find?_eq_none.mpr (fun x hx => by simp [h x hx])]
  rfl

/-! ### Claim C5 -/

/-- C5: for every cart state, key and quantity `q ≤ 0`, after
`updateQuantity(id, variant, q)` the cart contains no line item whose
compound key equals `(id, variant)`. -/
theorem updateQuantity_nonpos_removes_key (cart : List Item) (id variant : String)
    (q : JsNum) (hq : q.le (.int 0) = true) :
    ∀ i ∈ updateQuantity cart id variant q, itemMatches id variant i = false := by
  intro i hi
  unfold updateQuantity at hi
  cases hfind : cart.find? (itemMatches id variant) with
  | none =>
      rw [hfind] at hi
      exact Bool.eq_false_iff.mpr (List.find?_eq_none.mp hfind i hi)
  | some j =>
      rw [hfind] at hi
      simp only [hq, if_true] at hi
      unfold removeItem at hi
      have h2 := (List.mem_filter.mp hi).2
      simpa using h2

/-- Witness for C5 at a concrete cart: the untouched second item is not
removed spuriously and the matching item is gone. -/
theorem updateQuantity_nonpos_removes_key_witness :
    itemMatches "p1" "Red"
        (⟨"p2", "Tote", "$20.00", "Blue", "", .int 1⟩ : Item) = false :=
  updateQuantity_nonpos_removes_key
    [⟨"p1", "Bag", "$10.00", "Red", "", .int 2⟩,
     ⟨"p2", "Tote", "$20.00", "Blue", "", .int 1⟩]
    "p1" "Red" (.int 0) (by decide)
    ⟨"p2", "Tote", "$20.00", "Blue", "", .int 1⟩ (by decide)

/-! ### Claim C6 -/

/-- C6: for a quantity `n ≥ 1`, `updateQuantity` overwrites the first
matching item's quantity with exactly `n` and leaves every other item
untouched; with no matching item the cart is unchanged. -/
theorem updateQuantity_pos_overwrites (cart : List Item) (id variant : String)
    (n : Int) (hn : 1 ≤ n) :
    ((∀ i ∈ cart, itemMatches id variant i = false) →
        updateQuantity cart id variant (.int n) = cart)
    ∧ (∀ (l1 : List Item) (i : Item) (l2 : List Item), cart = l1 ++ i :: l2 →
        (∀ j ∈ l1, itemMatches id variant j = false) →
        itemMatches id variant i = true →
        updateQuantity cart id variant (.int n)
          = l1 ++ { i with quantity := .int n } :: l2) := by
  constructor
  · intro h
    unfold updateQuantity
    rw [List.find?_eq_none.mpr (fun x hx => by simp [h x hx])]
  · rintro l1 i l2 rfl h1 hi
    unfold updateQuantity
    rw [find?_append_left_none _ l1 (i :: l2) h1]
    rw [List.find?_cons_of_pos _ hi]
    have hle : JsNum.le (.int n) (.int 0) = false := by
      simp [JsNum.le]; omega
    simp only [hle, if_false, Bool.false_eq_true]
    exact mapFirst_append _ _ l1 i l2 h1 hi

/-- Witness for C6: overwriting quantity 2 with 3 on a concrete
singleton cart. -/
theorem updateQuantity_pos_overwrites_witness :
    updateQuantity [⟨"p1", "Bag", "$10.00", "Red", "", .int 2⟩] "p1" "Red" (.int 3)
      = [⟨"p1", "Bag", "$10.00", "Red", "", .int 3⟩] :=
  (updateQuantity_pos_overwrites [⟨"p1", "Bag", "$10.00", "Red", "", .int 2⟩]
      "p1" "Red" 3 (by norm_num)).2
    [] ⟨"p1", "Bag", "$10.00", "Red", "", .int 2⟩ [] rfl (by simp) (by decide)

/-! ### Claim C10 -/

/-- C10: removeItem removes every line item with the targeted compound
key (even duplicates), keeps the other items in order (the result is a
sublist of the input), and keeps every non-matching item with its
multiplicity. -/
theorem removeItem_removes_all (cart : List Item) (id variant : String) :
    (∀ i ∈ removeItem cart id variant, itemMatches id variant i = false)
    ∧ (removeItem cart id variant).Sublist cart
    ∧ ∀ i : Item, itemMatches id variant i = false →
        (removeItem cart id variant).count i = cart.count i := by
  refine ⟨?_, ?_, ?_⟩
  · intro i hi
    have h2 := (List.mem_filter.mp hi).2
    simpa using h2
  · exact List.filter_sublist cart
  · intro i hi
    exact List.count_filter (by simp [hi])

/-- Witness for C10 on a concrete cart with a duplicated key: the
result is a sublist of the input. -/
theorem removeItem_removes_all_witness :
    (removeItem
        [⟨"p1", "Bag", "$10.00", "Red", "", .int 1⟩,
         ⟨"p2", "Tote", "$20.00", "Blue", "", .int 1⟩,
         ⟨"p1", "Bag2", "$11.00", "Red", "", .int 4⟩]
        "p1" "Red").Sublist
      [⟨"p1", "Bag", "$10.00", "Red", "", .int 1⟩,
       ⟨"p2", "Tote", "$20.00", "Blue", "", .int 1⟩,
       ⟨"p1", "Bag2", "$11.00", "Red", "", .int 4⟩] :=
  (removeItem_removes_all
      [⟨"p1", "Bag", "$10.00", "Red", "", .int 1⟩,
       ⟨"p2", "Tote", "$20.00", "Blue", "", .int 1⟩,
       ⟨"p1", "Bag2", "$11.00", "Red", "", .int 4⟩]
      "p1" "Red").2.1

/-! ### Claim C9 -/

/-- C9: addItem defaults the quantity to 1 only on the insert branch;
on the merge branch the raw request quantity is added, so a request
with an absent quantity that matches an existing item stores NaN,
which violates the positive-integer quantity invariant. -/
theorem addItem_merge_skips_quantity_default :
    ((addItem [⟨"p1", "Bag", "$10.00", "Red", "", .int 1⟩]
        ⟨"p1", "Bag", "$10.00", "Red", "", none⟩).map Item.quantity = [.nan])
    ∧ ((addItem [] ⟨"p1", "Bag", "$10.00", "Red", "", none⟩).map Item.quantity
        = [.int 1])
    ∧ ((addItem [⟨"p1", "Bag", "$10.00", "Red", "", .int 1⟩]
        ⟨"p1", "Bag", "$10.00", "Red", "", none⟩).all
          (fun i => i.quantity.isPosInt) = false) := by
  decide

/-! ### Claim C4 -/

/-- Counterexample to C4: an item with a non-empty stored image whose
name contains a keyword is rendered with the keyword image, not the
stored one. -/
theorem cartItemImage_ignores_stored_image :
    (⟨"p1", "Minimalist Tote", "$99.00", "default", "assets/images/custom.jpg",
        .int 1⟩ : Item).image ≠ ""
    ∧ cartItemImage
        ⟨"p1", "Minimalist Tote", "$99.00", "default", "assets/images/custom.jpg",
          .int 1⟩ = "assets/images/Product 2.jpg"
    ∧ cartItemImage
        ⟨"p1", "Minimalist Tote", "$99.00", "default", "assets/images/custom.jpg",
          .int 1⟩
      ≠ (⟨"p1", "Minimalist Tote", "$99.00", "default", "assets/images/custom.jpg",
          .int 1⟩ : Item).image := by
  decide

/-- C4 amended: the name-keyword mapping has priority; the stored image
is used only when no keyword matches and it is non-empty, and image A
is the default when no keyword matches and the image is empty. -/
theorem cartItemImage_spec (item : Item) :
    ((containsSub item.name "Minimalist" || containsSub item.name "Crossbody") = true →
        cartItemImage item = "assets/images/Product 2.jpg")
    ∧ ((containsSub item.name "Minimalist" || containsSub item.name "Crossbody") = false →
        (containsSub item.name "Clutch" || containsSub item.name "Evening") = true →
        cartItemImage item = "assets/images/Product 3.jpg")
    ∧ ((containsSub item.name "Minimalist" || containsSub item.name "Crossbody") = false →
        (containsSub item.name "Clutch" || containsSub item.name "Evening") = false →
        (containsSub item.name "Backpack" || containsSub item.name "Weekend") = true →
        cartItemImage item = "assets/images/Product 4.jpg")
    ∧ ((containsSub item.name "Minimalist" || containsSub item.name "Crossbody") = false →
        (containsSub item.name "Clutch" || containsSub item.name "Evening") = false →
        (containsSub item.name "Backpack" || containsSub item.name "Weekend") = false →
        item.image ≠ "" → cartItemImage item = item.image)
    ∧ ((containsSub item.name "Minimalist" || containsSub item.name "Crossbody") = false →
        (containsSub item.name "Clutch" || containsSub item.name "Evening") = false →
        (containsSub item.name "Backpack" || containsSub item.name "Weekend") = false →
        item.image = "" → cartItemImage item = "assets/images/Product 1.jpg") := by
  unfold cartItemImage
  refine ⟨fun h2 => by simp [h2], fun h2 h3 => by simp [h2, h3],
    fun h2 h3 h4 => by simp [h2, h3, h4], fun h2 h3 h4 hi => by simp [h2, h3, h4, hi],
    fun h2 h3 h4 hi => by simp [h2, h3, h4, hi]⟩

/-- Witness for C4 amended: an item with no keyword name and a stored
image keeps its stored image. -/
theorem cartItemImage_spec_witness :
    cartItemImage ⟨"p1", "Leather Tote", "$99.00", "default",
        "assets/images/custom.jpg", .int 1⟩
      = (⟨"p1", "Leather Tote", "$99.00", "default",
        "assets/images/custom.jpg", .int 1⟩ : Item).image :=
  (cartItemImage_spec ⟨"p1", "Leather Tote", "$99.00", "default",
      "assets/images/custom.jpg", .int 1⟩).2.2.2.1
    (by decide) (by decide) (by decide) (by decide)

/-! ### Claim C8 -/

theorem getTotalQuantity_posInt :
    ∀ (cart : List Item) (m : Int), (∀ i ∈ cart, i.quantity.isPosInt = true) →
      List.foldl (fun total i => total.add i.quantity) (JsNum.int m) cart
        = .int (List.foldl (fun s i => s + qtyInt i) m cart)
      ∧ m ≤ List.foldl (fun s i => s + qtyInt i) m cart := by
  intro cart
  induction cart with
  | nil => exact fun m _ => ⟨rfl, le_refl m⟩
  | cons i rest ih =>
      intro m h
      have hi : i.quantity.isPosInt = true := h i (by simp)
      cases hq : i.quantity with
      | nan => rw [hq] at hi; exact absurd hi (by simp [JsNum.isPosInt])
      | int n =>
          rw [hq] at hi
          have hn : 1 ≤ n := by simpa [JsNum.isPosInt] using hi
          have step := ih (m + n) (fun j hj => h j (by simp [hj]))
          constructor
          · simpa [List.foldl_cons, JsNum.add, hq, qtyInt] using step.1
          · have h2 : m ≤ m + n := by omega
            calc m ≤ m + n := h2
              _ ≤ List.foldl (fun s i => s + qtyInt i) (m + n) rest := step.2
              _ = List.foldl (fun s i => s + qtyInt i) m (i :: rest) := by
                    simp [List.foldl_cons, qtyInt, hq]

/-- C8: the counter presenter is a no-op without a badge element;
with one, the badge text becomes the cart's total quantity, and the
badge is shown (`flex`) exactly when the total is positive and hidden
(`none`) exactly when the total is zero. -/
theorem updateCartCounter_spec (cart : List Item)
    (h : ∀ i ∈ cart, i.quantity.isPosInt = true) :
    updateCartCounter cart none = none
    ∧ getTotalQuantity cart = .int (totalQtyInt cart)
    ∧ ∀ b bb : Badge, updateCartCounter cart (some b) = some bb →
        bb.text = jsNumText (.int (totalQtyInt cart))
        ∧ (bb.display = "flex" ↔ 0 < totalQtyInt cart)
        ∧ (bb.display = "none" ↔ totalQtyInt cart = 0) := by
  have key := getTotalQuantity_posInt cart 0 h
  have htot : getTotalQuantity cart = .int (totalQtyInt cart) := key.1
  have hge : (0 : Int) ≤ totalQtyInt cart := key.2
  refine ⟨rfl, htot, ?_⟩
  intro b bb hbb
  unfold updateCartCounter at hbb
  rw [htot, Option.some.injEq] at hbb
  subst hbb
  refine ⟨rfl, ?_, ?_⟩
  · show (if JsNum.lt (.int 0) (.int (totalQtyInt cart)) = true then "flex" else "none")
        = "flex" ↔ 0 < totalQtyInt cart
    by_cases h0 : 0 < totalQtyInt cart
    · rw [if_pos (by simpa [JsNum.lt] using h0)]
      exact iff_of_true rfl h0
    · rw [if_neg (by simp [JsNum.lt]; omega)]
      exact iff_of_false (by decide) h0
  · show (if JsNum.lt (.int 0) (.int (totalQtyInt cart)) = true then "flex" else "none")
        = "none" ↔ totalQtyInt cart = 0
    by_cases h0 : 0 < totalQtyInt cart
    · rw [if_pos (by simpa [JsNum.lt] using h0)]
      exact iff_of_false (by decide) (by omega)
    · rw [if_neg (by simp [JsNum.lt]; omega)]
      exact iff_of_true rfl (by omega)

/-- Witness for C8 at a one-item cart with quantity 2: the badge reads
2 and is shown. -/
theorem updateCartCounter_spec_witness :
    (⟨"2", "flex"⟩ : Badge).text
        = jsNumText (.int (totalQtyInt [⟨"p1", "Bag", "$10.00", "Red", "", .int 2⟩]))
    ∧ ((⟨"2", "flex"⟩ : Badge).display = "flex"
        ↔ 0 < totalQtyInt [⟨"p1", "Bag", "$10.00", "Red", "", .int 2⟩])
    ∧ ((⟨"2", "flex"⟩ : Badge).display = "none"
        ↔ totalQtyInt [⟨"p1", "Bag", "$10.00", "Red", "", .int 2⟩] = 0) :=
  (updateCartCounter_spec [⟨"p1", "Bag", "$10.00", "Red", "", .int 2⟩]
      (by decide)).2.2 ⟨"0", "none"⟩ ⟨"2", "flex"⟩ (by decide)

/-! ### Claim C1 -/

/-- Counterexample to C1: starting from a duplicate-free (empty) cart,
two addItem calls whose requests share the identical key
`("p1", "")` produce a cart with two line items that share the stored
compound key `("p1", "default")`, because the insert branch defaults
the variant but the lookup compares against the raw request variant. -/
theorem addItem_empty_variant_duplicates :
    NoDupKeys ([] : List Item)
    ∧ ¬ NoDupKeys (addItem (addItem [] ⟨"p1", "Bag", "$10.00", "", "", some (.int 1)⟩)
        ⟨"p1", "Bag", "$10.00", "", "", some (.int 1)⟩)
    ∧ ((addItem (addItem [] ⟨"p1", "Bag", "$10.00", "", "", some (.int 1)⟩)
        ⟨"p1", "Bag", "$10.00", "", "", some (.int 1)⟩).filter
          (itemMatches "p1" "default")).length = 2 := by
  decide

/-- C1 amended: for two addItem requests with the same non-empty
variant and positive integer quantities, on a duplicate-free cart that
does not yet contain the key, the result has exactly one line item with
that key, its quantity is the sum of the two requested quantities, and
no duplicate key appears. -/
theorem addItem_merge_spec (cart : List Item) (p1 p2 : Product) (q1 q2 : Int)
    (hdup : NoDupKeys cart)
    (hid : p2.id = p1.id) (hvar : p2.variant = p1.variant) (hv : p1.variant ≠ "")
    (hnew : ∀ i ∈ cart, itemMatches p1.id p1.variant i = false)
    (hq1 : p1.quantity = some (.int q1)) (hq1p : 1 ≤ q1)
    (hq2 : p2.quantity = some (.int q2)) (hq2p : 1 ≤ q2) :
    ((addItem (addItem cart p1) p2).filter (itemMatches p1.id p1.variant)).map
        Item.quantity = [.int (q1 + q2)]
    ∧ NoDupKeys (addItem (addItem cart p1) p2) := by
  have hfind1 : cart.find? (itemMatches p1.id p1.variant) = none :=
    List.find?_eq_none.mpr (fun x hx => by simp [hnew x hx])
  have hstep1 : addItem cart p1 = cart ++ [newItem p1] := by
    unfold addItem
    rw [hfind1]
  have hnv : (newItem p1).variant = p1.variant := by simp [newItem, hv]
  have hq1ne : q1 ≠ 0 := by omega
  have hnq : (newItem p1).quantity = .int q1 := by
    simp [newItem, Product.qtyTruthy, Product.qtyNum, hq1, JsNum.truthy, hq1ne]
  have hmatch_n : itemMatches p1.id p1.variant (newItem p1) = true := by
    rw [itemMatches_iff]
    exact ⟨rfl, hnv⟩
  have hfind2 : (cart ++ [newItem p1]).find? (itemMatches p2.id p2.variant)
      = some (newItem p1) := by
    rw [hid, hvar, find?_append_left_none _ _ _ hnew, List.find?_cons_of_pos _ hmatch_n]
  have hq2num : p2.qtyNum = .int q2 := by simp [Product.qtyNum, hq2]
  have hstep2 : addItem (cart ++ [newItem p1]) p2
      = cart ++ [{ newItem p1 with quantity := .int (q1 + q2) }] := by
    unfold addItem
    rw [hfind2, hid, hvar,
      mapFirst_append (itemMatches p1.id p1.variant) _ cart (newItem p1) [] hnew hmatch_n,
      hnq, hq2num]
    rfl
  have hmatch_n2 : itemMatches p1.id p1.variant
      { newItem p1 with quantity := .int (q1 + q2) } = true := by
    rw [itemMatches_iff]
    exact ⟨rfl, hnv⟩
  rw [hstep1, hstep2]
  constructor
  · rw [List.filter_append]
    rw [List.filter_eq_nil_iff.mpr (fun a ha => by simp [hnew a ha])]
    simp [hmatch_n2]
  · rw [NoDupKeys, List.pairwise_append]
    refine ⟨hdup, by simp, ?_⟩
    intro a ha b hb
    have hb' : b = { newItem p1 with quantity := .int (q1 + q2) } := by simpa using hb
    subst hb'
    have hfa := itemMatches_false_iff.mp (hnew a ha)
    intro hcon
    exact hfa ⟨hcon.1, by rw [← hnv]; exact hcon.2⟩

/-- Witness for C1 amended: two additions of key ("p1","Red") with
quantities 2 and 3 on the empty cart leave one item with quantity 5 and
no duplicate keys. -/
theorem addItem_merge_spec_witness :
    ((addItem (addItem [] ⟨"p1", "Bag", "$10.00", "Red", "", some (.int 2)⟩)
        ⟨"p1", "Bag2", "$11.00", "Red", "", some (.int 3)⟩).filter
          (itemMatches "p1" "Red")).map Item.quantity = [.int (2 + 3)]
    ∧ NoDupKeys (addItem (addItem [] ⟨"p1", "Bag", "$10.00", "Red", "", some (.int 2)⟩)
        ⟨"p1", "Bag2", "$11.00", "Red", "", some (.int 3)⟩) :=
  addItem_merge_spec [] ⟨"p1", "Bag", "$10.00", "Red", "", some (.int 2)⟩
    ⟨"p1", "Bag2", "$11.00", "Red", "", some (.int 3)⟩ 2 3
    (by simp [NoDupKeys]) rfl rfl (by decide) (by simp) rfl (by norm_num) rfl (by norm_num)

/-! ### Claim C2 -/

/-- Counterexample to C2: an unparsable stored value does not yield the
empty cart — `JSON.parse` throws and `getCart` propagates the error. -/
theorem getCart_unparsable_throws :
    getCart (some "not json") = .error () := by
  rfl

/-- C2 amended: loading yields the empty cart for an absent key or an
empty stored string, but an unparsable stored value raises an uncaught
parse error instead of yielding the empty cart. -/
theorem getCart_absence_vs_garbage :
    getCart none = .ok []
    ∧ getCart (some "") = .ok []
    ∧ getCart (some "not json") ≠ .ok []
    ∧ getCart (some "not json") = .error () := by
  refine ⟨rfl, rfl, ?_, rfl⟩
  intro h
  have h2 : (Except.error () : Except Unit (List Item)) = .ok [] := h
  exact Except.noConfusion h2

/-! ### Digit and character-class lemmas -/

theorem isDigitCh_toNat {x : Char} (h : isDigitCh x = true) :
    48 ≤ x.toNat ∧ x.toNat ≤ 57 := by
  simp only [isDigitCh, Bool.and_eq_true, decide_eq_true_eq] at h
  obtain ⟨h1, h2⟩ := h
  rw [Char.le_def] at h1 h2
  exact ⟨h1, h2⟩

theorem digit_ne_of_toNat {x c : Char} (h : isDigitCh x = true)
    (hc : c.toNat < 48 ∨ 57 < c.toNat) : x ≠ c := by
  intro he
  obtain ⟨h1, h2⟩ := isDigitCh_toNat h
  subst he
  omega

theorem digit_not_ws {x : Char} (h : isDigitCh x = true) : isWsChar x = false := by
  have hne : ∀ c : Char, c.toNat < 48 → x ≠ c :=
    fun c hc => digit_ne_of_toNat h (Or.inl hc)
  unfold isWsChar
  simp only [Bool.or_eq_false_iff, decide_eq_false_iff_not]
  refine ⟨⟨⟨⟨⟨?_, ?_⟩, ?_⟩, ?_⟩, ?_⟩, ?_⟩ <;> exact hne _ (by decide)

theorem takeWhile_app (p : Char → Bool) (d r : List Char)
    (hall : ∀ x ∈ d, p x = true)
    (hr : ∀ c t, r = c :: t → p c = false) :
    (d ++ r).takeWhile p = d ∧ (d ++ r).dropWhile p = r := by
  induction d with
  | nil =>
      simp only [List.nil_append]
      cases r with
      | nil => simp
      | cons c t =>
          have hc := hr c t rfl
          simp [List.takeWhile_cons, List.dropWhile_cons, hc]
  | cons a d' ih =>
      have ha : p a = true := hall a (by simp)
      have ih' := ih (fun x hx => hall x (by simp [hx]))
      simp [List.takeWhile_cons, List.dropWhile_cons, ha, ih'.1, ih'.2]

theorem takeWhile_all (p : Char → Bool) (l : List Char)
    (h : ∀ x ∈ l, p x = true) : l.takeWhile p = l := by
  have happ := takeWhile_app p l [] h (fun c t heq => absurd heq (by simp))
  simpa using happ.1

theorem removeFirst_append (c0 : Char) (d r : List Char)
    (h : ∀ x ∈ d, x ≠ c0) :
    removeFirst c0 (d ++ c0 :: r) = d ++ r := by
  induction d with
  | nil => simp [removeFirst]
  | cons a t ih =>
      have ha : a ≠ c0 := h a (by simp)
      simp [removeFirst, ha, ih (fun x hx => h x (by simp [hx]))]

theorem parseFloatSign_of_head (h0 : Char) (t : List Char)
    (h1 : h0 ≠ '-') (h2 : h0 ≠ '+') : parseFloatSign (h0 :: t) = (1, h0 :: t) := by
  simp [parseFloatSign, h1, h2]

theorem parseFloatMag_digits (a c : List Char) (ha : a ≠ [])
    (hda : ∀ x ∈ a, isDigitCh x = true) (hdc : ∀ x ∈ c, isDigitCh x = true) :
    parseFloatMag (a ++ '.' :: c)
      = some (digitListVal a * 10 ^ c.length + digitListVal c, c.length) := by
  have htw := takeWhile_app isDigitCh a ('.' :: c) hda
    (fun ch t heq => by
      injection heq with hh _
      rw [← hh]
      decide)
  unfold parseFloatMag
  rw [htw.1, htw.2]
  have hfrac : fracPart ('.' :: c) = c := by
    unfold fracPart
    exact takeWhile_all isDigitCh c hdc
  rw [hfrac]
  rw [if_neg (by rintro ⟨h1, _⟩; exact ha h1)]

theorem parseFloatDec_digits (a c : List Char) (ha : a ≠ [])
    (hda : ∀ x ∈ a, isDigitCh x = true) (hdc : ∀ x ∈ c, isDigitCh x = true) :
    parseFloatDec (a ++ '.' :: c)
      = some (((digitListVal a * 10 ^ c.length + digitListVal c : Nat) : Int),
          c.length) := by
  obtain ⟨h0, a', rfl⟩ : ∃ h0 a', a = h0 :: a' := by
    cases a with
    | nil => exact absurd rfl ha
    | cons x t => exact ⟨x, t, rfl⟩
  have hd0 : isDigitCh h0 = true := hda h0 (by simp)
  unfold parseFloatDec
  rw [List.cons_append, List.dropWhile_cons]
  rw [digit_not_ws hd0]
  simp only [Bool.false_eq_true, if_false]
  rw [parseFloatSign_of_head h0 (a' ++ '.' :: c)
      (digit_ne_of_toNat hd0 (by decide)) (digit_ne_of_toNat hd0 (by decide))]
  show (parseFloatMag (h0 :: (a' ++ '.' :: c))).map
      (fun r => ((1 : Int) * (r.1 : Int), r.2))
    = some (((digitListVal (h0 :: a') * 10 ^ c.length + digitListVal c : Nat) : Int),
        c.length)
  have hm := parseFloatMag_digits (h0 :: a') c (by simp) hda hdc
  rw [List.cons_append] at hm
  rw [hm]
  simp

/-! ### Claim C3 -/

/-- Counterexample to C3: the code strips only the first comma (the
JavaScript `replace` with a string pattern replaces one occurrence), so
a price with two commas parses as 1234, not as the full amount. -/
theorem parsePrice_multi_comma_cex :
    parsePrice "$1,234,567.00" = some 1234
    ∧ (1234 : ℚ) ≠ (1234567 : ℚ)
    ∧ parsePrice "$1,234,567.00" ≠ some (1234567 : ℚ) := by
  have h : parseFloatDec (removeFirst ',' (removeFirst '$' "$1,234,567.00".data))
      = some (1234, 0) := by decide
  have hval : parsePrice "$1,234,567.00" = some 1234 := by
    rw [parsePrice, parseFloatQ, h]
    norm_num
  refine ⟨hval, by norm_num, ?_⟩
  rw [hval]
  intro hcon
  rw [Option.some.injEq] at hcon
  norm_num at hcon

/-- C3 amended: the parsing strips the leading `$` and the FIRST comma
separator only; a price of the shape `$a,b.c` with a single comma
parses to the full numeric amount (all the digits of `a` and `b`, plus
the fraction `c`). -/
theorem parsePrice_single_comma (a b c : List Char) (ha : a ≠ []) (hb : b ≠ [])
    (hda : ∀ x ∈ a, isDigitCh x = true) (hdb : ∀ x ∈ b, isDigitCh x = true)
    (hdc : ∀ x ∈ c, isDigitCh x = true) :
    parsePrice (String.mk ('$' :: (a ++ ',' :: (b ++ '.' :: c))))
      = some ((digitListVal (a ++ b) * 10 ^ c.length + digitListVal c : ℚ)
          / (10 : ℚ) ^ c.length) := by
  unfold parsePrice
  have hdata : (String.mk ('$' :: (a ++ ',' :: (b ++ '.' :: c)))).data
      = '$' :: (a ++ ',' :: (b ++ '.' :: c)) := rfl
  rw [hdata]
  have hdollar : removeFirst '$' ('$' :: (a ++ ',' :: (b ++ '.' :: c)))
      = a ++ ',' :: (b ++ '.' :: c) := by simp [removeFirst]
  rw [hdollar]
  rw [removeFirst_append ',' a (b ++ '.' :: c)
    (fun x hx => digit_ne_of_toNat (hda x hx) (by decide))]
  rw [show a ++ (b ++ '.' :: c) = (a ++ b) ++ '.' :: c by rw [List.append_assoc]]
  unfold parseFloatQ
  rw [parseFloatDec_digits (a ++ b) c (by simp [ha])
    (fun x hx => by
      rcases List.mem_append.mp hx with h1 | h1
      · exact hda x h1
      · exact hdb x h1)
    hdc]
  simp

/-- Witness for C3 amended at the spec's own example: `$1,250.50`
parses to 1250.50. -/
theorem parsePrice_single_comma_witness :
    parsePrice (String.mk ('$' :: ("1".data ++ ',' :: ("250".data ++ '.' :: "50".data))))
      = some ((digitListVal ("1".data ++ "250".data) * 10 ^ ("50".data).length
          + digitListVal "50".data : ℚ) / (10 : ℚ) ^ ("50".data).length) :=
  parsePrice_single_comma "1".data "250".data "50".data (by decide) (by decide)
    (by decide) (by decide) (by decide)

/-! ### Serialization round-trip lemmas -/

theorem expects_append (p r : List Char) : expects p (p ++ r) = some r := by
  induction p with
  | nil => rfl
  | cons c ps ih => simp [expects, ih]

theorem expects_single (c : Char) (r : List Char) : expects [c] (c :: r) = some r := by
  simp [expects]

theorem expects_cons (c : Char) (p r : List Char) :
    expects (c :: p) (c :: r) = expects p r := by
  simp [expects]

theorem hexVal_hexDigitCh (n : Nat) (h : n < 16) : hexVal (hexDigitCh n) = some n := by
  interval_cases n <;> decide

theorem parseStringBody_escape (c : Char) (rest : List Char) :
    parseStringBody (escapeChar c ++ rest)
      = (parseStringBody rest).map (fun r => (c :: r.1, r.2)) := by
  unfold escapeChar
  split_ifs with h1 h2 h3 h4 h5 h6 h7 h8
  · subst h1; rfl
  · subst h2; rfl
  · subst h3; rfl
  · subst h4; rfl
  · subst h5; rfl
  · subst h6; rfl
  · subst h7; rfl
  · show parseStringBody
        ('\\' :: 'u' :: '0' :: '0' :: hexDigitCh (c.toNat / 16)
          :: hexDigitCh (c.toNat % 16) :: rest) = _
    have hstep : parseStringBody
        ('\\' :: 'u' :: '0' :: '0' :: hexDigitCh (c.toNat / 16)
          :: hexDigitCh (c.toNat % 16) :: rest)
        = (match hexVal '0', hexVal '0', hexVal (hexDigitCh (c.toNat / 16)),
            hexVal (hexDigitCh (c.toNat % 16)) with
          | some a, some b, some c1, some d =>
              (parseStringBody rest).map
                (fun r => (Char.ofNat (((a * 16 + b) * 16 + c1) * 16 + d) :: r.1, r.2))
          | _, _, _, _ => none) := rfl
    rw [hstep, hexVal_hexDigitCh (c.toNat / 16) (by omega),
      hexVal_hexDigitCh (c.toNat % 16) (by omega)]
    show (parseStringBody rest).map
        (fun r => (Char.ofNat (((0 * 16 + 0) * 16 + c.toNat / 16) * 16 + c.toNat % 16)
          :: r.1, r.2)) = _
    have harith : ((0 * 16 + 0) * 16 + c.toNat / 16) * 16 + c.toNat % 16 = c.toNat := by
      omega
    rw [harith, Char.ofNat_toNat]
  · show parseStringBody (c :: rest) = _
    rw [parseStringBody.eq_def]
    have hge : ¬ c.toNat < 32 := h8
    simp only [if_neg h1, if_neg h2, if_neg hge]

theorem parseStringBody_escapes (s rest : List Char) :
    parseStringBody (escapeChars s ++ ('"' :: rest)) = some (s, rest) := by
  induction s with
  | nil =>
      show parseStringBody ('"' :: rest) = some ([], rest)
      rw [parseStringBody.eq_def]
      rfl
  | cons c cs ih =>
      show parseStringBody ((escapeChar c ++ escapeChars cs) ++ ('"' :: rest)) = _
      rw [List.append_assoc, parseStringBody_escape, ih]
      rfl

theorem parseJString_jstr (s : String) (rest : List Char) :
    parseJString (jstr s ++ rest) = some (s.data, rest) := by
  show parseJString (('"' :: escapeChars s.data ++ ['"']) ++ rest) = _
  have hshape : ('"' :: escapeChars s.data ++ ['"']) ++ rest
      = '"' :: (escapeChars s.data ++ ('"' :: rest)) := by
    simp
  rw [hshape]
  show parseStringBody (escapeChars s.data ++ ('"' :: rest)) = _
  exact parseStringBody_escapes s.data rest

theorem parseField_roundtrip (k : String) (s : String) (rest : List Char) :
    parseField k (keyChars k ++ (jstr s ++ rest)) = some (s.data, rest) := by
  unfold parseField
  rw [expects_append]
  show parseJString (jstr s ++ rest) = _
  exact parseJString_jstr s rest

theorem natCharsAux_congr (n : Nat) :
    ∀ (f1 f2 : Nat), n < f1 → n < f2 → natCharsAux f1 n = natCharsAux f2 n := by
  induction n using Nat.strong_induction_on with
  | _ n ih =>
      intro f1 f2 h1 h2
      cases f1 with
      | zero => omega
      | succ g1 =>
          cases f2 with
          | zero => omega
          | succ g2 =>
              show (if n < 10 then [decDigit n]
                  else natCharsAux g1 (n / 10) ++ [decDigit (n % 10)])
                = (if n < 10 then [decDigit n]
                  else natCharsAux g2 (n / 10) ++ [decDigit (n % 10)])
              by_cases h10 : n < 10
              · rw [if_pos h10, if_pos h10]
              · rw [if_neg h10, if_neg h10]
                have hd : n / 10 < n := Nat.div_lt_self (by omega) (by omega)
                rw [ih (n / 10) hd g1 g2 (by omega) (by omega)]

theorem natChars_eq (n : Nat) :
    natChars n = if n < 10 then [decDigit n]
      else natChars (n / 10) ++ [decDigit (n % 10)] := by
  have h : natCharsAux (n + 1) n
      = if n < 10 then [decDigit n] else natCharsAux n (n / 10) ++ [decDigit (n % 10)] :=
    rfl
  show natCharsAux (n + 1) n = _
  rw [h]
  by_cases h10 : n < 10
  · rw [if_pos h10, if_pos h10]
  · rw [if_neg h10, if_neg h10]
    have hd : n / 10 < n := Nat.div_lt_self (by omega) (by omega)
    show natCharsAux n (n / 10) ++ _ = natCharsAux (n / 10 + 1) (n / 10) ++ _
    rw [natCharsAux_congr (n / 10) n (n / 10 + 1) (by omega) (by omega)]

theorem decDigit_toNat (d : Nat) (h : d < 10) : (decDigit d).toNat = 48 + d := by
  interval_cases d <;> decide

theorem isDigitCh_decDigit (d : Nat) (h : d < 10) : isDigitCh (decDigit d) = true := by
  interval_cases d <;> decide

theorem natChars_ne_nil (n : Nat) : natChars n ≠ [] := by
  rw [natChars_eq]
  by_cases h10 : n < 10
  · simp [h10]
  · simp [h10]

theorem natChars_all_digits (n : Nat) : ∀ x ∈ natChars n, isDigitCh x = true := by
  induction n using Nat.strong_induction_on with
  | _ n ih =>
      intro x hx
      rw [natChars_eq] at hx
      by_cases h10 : n < 10
      · rw [if_pos h10] at hx
        simp only [List.mem_singleton] at hx
        subst hx
        exact isDigitCh_decDigit n h10
      · rw [if_neg h10] at hx
        rcases List.mem_append.mp hx with h1 | h1
        · exact ih (n / 10) (Nat.div_lt_self (by omega) (by omega)) x h1
        · simp only [List.mem_singleton] at h1
          subst h1
          exact isDigitCh_decDigit (n % 10) (by omega)

theorem digitFold_shift (d : List Char) :
    ∀ acc : Nat, d.foldl (fun a c => a * 10 + (c.toNat - 48)) acc
      = acc * 10 ^ d.length + digitListVal d := by
  induction d with
  | nil => intro acc; simp [digitListVal]
  | cons c cs ih =>
      intro acc
      show cs.foldl (fun a c => a * 10 + (c.toNat - 48)) (acc * 10 + (c.toNat - 48)) = _
      rw [ih (acc * 10 + (c.toNat - 48))]
      have h2 : digitListVal (c :: cs)
          = (c.toNat - 48) * 10 ^ cs.length + digitListVal cs := by
        show cs.foldl (fun a c => a * 10 + (c.toNat - 48)) (0 * 10 + (c.toNat - 48)) = _
        rw [ih (0 * 10 + (c.toNat - 48))]
        ring
      rw [List.length_cons, h2]
      ring

theorem digitListVal_cons (c : Char) (cs : List Char) :
    digitListVal (c :: cs) = (c.toNat - 48) * 10 ^ cs.length + digitListVal cs := by
  show cs.foldl (fun a c => a * 10 + (c.toNat - 48)) (0 * 10 + (c.toNat - 48)) = _
  rw [digitFold_shift cs (0 * 10 + (c.toNat - 48))]
  ring

theorem digitListVal_append_single (d : List Char) (c : Char) :
    digitListVal (d ++ [c]) = digitListVal d * 10 + (c.toNat - 48) := by
  show (d ++ [c]).foldl (fun a c => a * 10 + (c.toNat - 48)) 0 = _
  rw [List.foldl_append]
  rfl

theorem digitListVal_natChars (n : Nat) : digitListVal (natChars n) = n := by
  induction n using Nat.strong_induction_on with
  | _ n ih =>
      rw [natChars_eq]
      by_cases h10 : n < 10
      · rw [if_pos h10]
        rw [digitListVal_cons]
        simp [digitListVal, decDigit_toNat n h10]
      · rw [if_neg h10, digitListVal_append_single,
          ih (n / 10) (Nat.div_lt_self (by omega) (by omega)),
          decDigit_toNat (n % 10) (by omega)]
        omega

theorem digitsAcc_append (d : List Char) (hd : ∀ x ∈ d, isDigitCh x = true) :
    ∀ (acc : Nat) (r : List Char),
      digitsAcc acc (d ++ r) = digitsAcc (acc * 10 ^ d.length + digitListVal d) r := by
  induction d with
  | nil => intro acc r; simp [digitListVal]
  | cons c cs ih =>
      intro acc r
      have hc : isDigitCh c = true := hd c (by simp)
      show digitsAcc acc (c :: (cs ++ r)) = _
      rw [digitsAcc, if_pos hc]
      rw [ih (fun x hx => hd x (by simp [hx])) (acc * 10 + (c.toNat - 48)) r]
      congr 1
      rw [digitListVal_cons, List.length_cons]
      ring

theorem digitsAcc_stop (acc : Nat) (r : List Char)
    (hr : ∀ c t, r = c :: t → isDigitCh c = false) : digitsAcc acc r = (acc, r) := by
  cases r with
  | nil => rfl
  | cons c t =>
      have hc := hr c t rfl
      rw [digitsAcc, if_neg (by simp [hc])]

theorem parseNatNum_digits (d r : List Char) (hd0 : d ≠ [])
    (hd : ∀ x ∈ d, isDigitCh x = true)
    (hr : ∀ c t, r = c :: t → isDigitCh c = false) :
    parseNatNum (d ++ r) = some (digitListVal d, r) := by
  cases d with
  | nil => exact absurd rfl hd0
  | cons c cs =>
      have hc : isDigitCh c = true := hd c (by simp)
      show parseNatNum (c :: (cs ++ r)) = _
      rw [parseNatNum, if_pos hc]
      rw [digitsAcc_append cs (fun x hx => hd x (by simp [hx])) (c.toNat - 48) r,
        digitsAcc_stop _ r hr, digitListVal_cons]

theorem parseJInt_int (m : Int) (r : List Char)
    (hr : ∀ c t, r = c :: t → isDigitCh c = false) :
    parseJInt (jsNumChars (.int m) ++ r) = some (m, r) := by
  show parseJInt (intChars m ++ r) = _
  by_cases hm : m < 0
  · rw [intChars, if_pos hm, List.cons_append]
    rw [parseJInt, if_pos rfl]
    rw [parseNatNum_digits (natChars m.natAbs) r (natChars_ne_nil _)
      (natChars_all_digits _) hr, digitListVal_natChars]
    have hcast : -(m.natAbs : Int) = m := by omega
    show some (-(m.natAbs : Int), r) = some (m, r)
    rw [hcast]
  · rw [intChars, if_neg hm]
    cases hnc : natChars m.natAbs with
    | nil => exact absurd hnc (natChars_ne_nil _)
    | cons c cs =>
        have hc : isDigitCh c = true := by
          have := natChars_all_digits m.natAbs c (by rw [hnc]; simp)
          exact this
        rw [List.cons_append, parseJInt,
          if_neg (show ¬(c = '-') from digit_ne_of_toNat hc (by decide))]
        rw [← List.cons_append, ← hnc]
        rw [parseNatNum_digits (natChars m.natAbs) r (natChars_ne_nil _)
          (natChars_all_digits _) hr, digitListVal_natChars]
        have hcast : (m.natAbs : Int) = m := by omega
        show some ((m.natAbs : Int), r) = some (m, r)
        rw [hcast]

theorem itemChars_shape (i : Item) (rest : List Char) :
    itemChars i ++ rest
      = lbrace :: (keyChars "id" ++ (jstr i.id ++ (',' ::
        (keyChars "name" ++ (jstr i.name ++ (',' ::
        (keyChars "price" ++ (jstr i.price ++ (',' ::
        (keyChars "variant" ++ (jstr i.variant ++ (',' ::
        (keyChars "image" ++ (jstr i.image ++ (',' ::
        (keyChars "quantity" ++ (jsNumChars i.quantity ++ (rbrace :: rest)))))))))))))))))) := by
  simp [itemChars, List.append_assoc]

theorem expects_nil (l : List Char) : expects [] l = some l := rfl

theorem parseItem_roundtrip (i : Item) (m : Int) (hq : i.quantity = .int m)
    (rest : List Char) : parseItem (itemChars i ++ rest) = some (i, rest) := by
  obtain ⟨iid, iname, iprice, ivariant, iimage, iq⟩ := i
  have hq2 : iq = JsNum.int m := hq
  subst hq2
  have hj : parseJInt (jsNumChars (.int m) ++ (rbrace :: rest))
      = some (m, rbrace :: rest) :=
    parseJInt_int m (rbrace :: rest) (fun c t h => by cases h; decide)
  rw [itemChars_shape]
  simp only [parseItem, expects_single, expects_cons, expects_nil, expects_append,
    parseField_roundtrip, hj, string_mk_data, Option.bind_eq_bind, Option.some_bind]

theorem parseItems_roundtrip :
    ∀ (cart : List Item) (fuel : Nat) (r : List Char),
      (∀ i ∈ cart, i.quantity.isIntQ = true) → cart ≠ [] → cart.length ≤ fuel →
      parseItems fuel (itemsChars cart ++ (']' :: r)) = some (cart, r) := by
  intro cart
  induction cart with
  | nil => intro fuel r _ hne _; exact absurd rfl hne
  | cons i tl ih =>
      intro fuel r hint hne hlen
      cases fuel with
      | zero => simp at hlen
      | succ f =>
          obtain ⟨m, hm⟩ : ∃ m : Int, i.quantity = .int m := by
            have hii := hint i (by simp)
            cases hq : i.quantity with
            | int n => exact ⟨n, rfl⟩
            | nan => rw [hq] at hii; exact absurd hii (by simp [JsNum.isIntQ])
          cases tl with
          | nil =>
              show parseItems (f + 1) (itemChars i ++ (']' :: r)) = some ([i], r)
              rw [parseItems, parseItem_roundtrip i m hm (']' :: r)]
              rfl
          | cons j tl2 =>
              show parseItems (f + 1)
                  ((itemChars i ++ ',' :: itemsChars (j :: tl2)) ++ (']' :: r))
                = some (i :: j :: tl2, r)
              rw [List.append_assoc, List.cons_append]
              rw [parseItems,
                parseItem_roundtrip i m hm (',' :: (itemsChars (j :: tl2) ++ (']' :: r)))]
              show (parseItems f (itemsChars (j :: tl2) ++ (']' :: r))).map
                  (fun r2 => (i :: r2.1, r2.2)) = some (i :: j :: tl2, r)
              rw [ih f r (fun x hx => hint x (by simp [hx])) (by simp)
                (by simpa using Nat.le_of_succ_le_succ hlen)]
              rfl

theorem itemChars_length_pos (i : Item) : 0 < (itemChars i).length := by
  simp [itemChars]

theorem length_le_itemsChars : ∀ cart : List Item, cart.length ≤ (itemsChars cart).length := by
  intro cart
  induction cart with
  | nil => simp [itemsChars]
  | cons i tl ih =>
      cases tl with
      | nil =>
          have h1 := itemChars_length_pos i
          show (1 : Nat) ≤ (itemChars i).length
          omega
      | cons j tl2 =>
          have h1 := itemChars_length_pos i
          show (i :: j :: tl2).length ≤ (itemChars i ++ ',' :: itemsChars (j :: tl2)).length
          rw [List.length_append, List.length_cons, List.length_cons, List.length_cons]
          have h2 : (j :: tl2).length ≤ (itemsChars (j :: tl2)).length := ih
          rw [List.length_cons] at h2
          omega

theorem parse_stringify (cart : List Item)
    (h : ∀ i ∈ cart, i.quantity.isIntQ = true) :
    parseCartChars (stringifyCart cart).data = some cart := by
  cases cart with
  | nil => decide
  | cons i tl =>
      show parseCartChars ('[' :: (itemsChars (i :: tl) ++ [']'])) = some (i :: tl)
      have hlen : (i :: tl).length ≤ (itemsChars (i :: tl)).length :=
        length_le_itemsChars (i :: tl)
      have hne2 : itemsChars (i :: tl) ++ [']'] ≠ [']'] := by
        intro hcon
        have hlc := congrArg List.length hcon
        rw [List.length_append] at hlc
        simp at hlc
        rw [hlc] at hlen
        simp at hlen
      show (if itemsChars (i :: tl) ++ [']'] = [']'] then some []
        else match parseItems ((itemsChars (i :: tl) ++ [']']).length + 1)
            (itemsChars (i :: tl) ++ [']']) with
          | some (items, []) => some items
          | _ => none) = some (i :: tl)
      rw [if_neg hne2]
      have hfuel : (i :: tl).length ≤ (itemsChars (i :: tl) ++ [']']).length + 1 := by
        rw [List.length_append]
        omega
      have hpi := parseItems_roundtrip (i :: tl)
        ((itemsChars (i :: tl) ++ [']']).length + 1) [] h (by simp) hfuel
      rw [show itemsChars (i :: tl) ++ (']' : Char) :: ([] : List Char)
          = itemsChars (i :: tl) ++ [']'] from rfl] at hpi
      rw [hpi]

/-! ### Claim C7 -/

/-- C7: for every well-formed stored cart value (the serialization of a
cart whose quantities are integers), loading parses back exactly the
same cart, and saving the loaded cart writes back a byte-identical
stored value. -/
theorem saveAfterLoad_roundtrip (cart : List Item)
    (h : ∀ i ∈ cart, i.quantity.isIntQ = true) :
    getCart (some (saveCart cart)) = .ok cart
    ∧ saveAfterLoad (saveCart cart) = .ok (saveCart cart) := by
  have hne : saveCart cart ≠ "" := by
    show String.mk ('[' :: itemsChars cart ++ [']']) ≠ ""
    intro hcon
    have hdata := congrArg String.data hcon
    simp at hdata
  have hparse := parse_stringify cart h
  have hget : getCart (some (saveCart cart)) = .ok cart := by
    show (if saveCart cart = "" then Except.ok []
      else match parseCartChars (stringifyCart cart).data with
        | some c => Except.ok c
        | none => Except.error ()) = Except.ok cart
    rw [if_neg hne, hparse]
  refine ⟨hget, ?_⟩
  unfold saveAfterLoad
  rw [hget]
  rfl

/-- Witness for C7 at a concrete one-item cart. -/
theorem saveAfterLoad_roundtrip_witness :
    getCart (some (saveCart [⟨"p1", "Bag", "$10.00", "Red", "", .int 2⟩]))
        = .ok [⟨"p1", "Bag", "$10.00", "Red", "", .int 2⟩]
    ∧ saveAfterLoad (saveCart [⟨"p1", "Bag", "$10.00", "Red", "", .int 2⟩])
        = .ok (saveCart [⟨"p1", "Bag", "$10.00", "Red", "", .int 2⟩]) :=
  saveAfterLoad_roundtrip [⟨"p1", "Bag", "$10.00", "Red", "", .int 2⟩] (by decide)
